import Mathlib

/-!
Shallow embedding of the reverse HTTP proxy (package github.com/WillKirkmanM/proxy):
token-bucket rate limiter, LRU+TTL response cache, the three load-balancing
strategies, and the forwarder header injection, together with theorems about
the claims of the specification.

Conventions of the embedding:
* machine integers (Go int, int64) are modelled as Lean Int;
* timestamps are modelled as Nat nanoseconds (Go time.Time is monotonic in
  the code paths modelled here, so now is never before lastRefill);
* Go maps together with the intrusive recency list of the cache are modelled
  as association lists ordered by recency (head = most recently used);
* Go http.Header is modelled as an association list of name/value pairs with
  Set-semantics (replace existing value).
-/

/-! ## Headers, requests and responses -/

/-- A header map, modelled as an association list name to value.
Go http.Header.Set replaces the value; our setHeader mirrors that. -/
abbrev Headers := List (String × String)

/-- Set a header, replacing any existing value under the same name
(the semantics of Go http.Header.Set for the single-value headers used here). -/
def setHeader (hs : Headers) (k v : String) : Headers :=
  (k, v) :: hs.filter (fun p => p.1 ≠ k)

/-- Read a header value (Go http.Header.Get); none when absent. -/
def getHeader (hs : Headers) (k : String) : Option String :=
  (hs.find? (fun p => p.1 == k)).map (·.2)

/-- An incoming HTTP request, restricted to the fields the modelled code reads. -/
structure Request where
  method : String
  urlStr : String
  accept : String
  acceptEncoding : String
  xForwardedFor : String
  xRealIP : String
  remoteAddr : String

deriving DecidableEq, Repr

/-- An HTTP response as observed by the client: status, body and headers. -/
structure HttpResponse where
  status : Int
  body : String
  headers : Headers

deriving DecidableEq, Repr

/-! ## Token bucket (src/internal/middleware/ratelimit.go) -/

/-- Nanoseconds per second: Go time.Duration.Seconds truncated to int equals
division of the nanosecond count by this constant for non-negative durations. -/
def nsPerSec : Nat := 1000000000

/-- TokenBucket from ratelimit.go: capacity, current tokens, refill rate
(tokens per second) and the timestamp of the last refill. -/
structure TokenBucket where
  capacity : Int
  tokens : Int
  refillRate : Int
  lastRefill : Nat

deriving DecidableEq, Repr

/-- NewTokenBucket: a bucket starts at full capacity. -/
def NewTokenBucket (capacity refillRate : Int) (now : Nat) : TokenBucket :=
  { capacity := capacity
    tokens := capacity
    refillRate := refillRate
    lastRefill := now }

/-- TokenBucket.refill: tokensToAdd = floor(elapsed seconds) * refillRate;
when tokensToAdd > 0 the tokens are added, clamped at capacity, and
lastRefill advances to now; otherwise the bucket is unchanged. -/
def TokenBucket.refill (tb : TokenBucket) (now : Nat) : TokenBucket :=
  let elapsed : Nat := now - tb.lastRefill
  let tokensToAdd : Int := (elapsed / nsPerSec : Nat) * tb.refillRate
  if tokensToAdd > 0 then
    let t := tb.tokens + tokensToAdd
    { tb with tokens := if t > tb.capacity then tb.capacity else t
              lastRefill := now }
  else
    tb

/-- TokenBucket.TryConsume: refill, then consume when enough tokens remain.
Returns the admission decision and the updated bucket. -/
def TokenBucket.tryConsume (tb : TokenBucket) (now : Nat) (n : Int) :
    Bool × TokenBucket :=
  let tb := tb.refill now
  if tb.tokens ≥ n then
    (true, { tb with tokens := tb.tokens - n })
  else
    (false, tb)

/-! ## Rate limiter middleware -/

/-- RateLimiter from ratelimit.go: per-client buckets plus the configured
capacity and refill rate used for newly created buckets. -/
structure RateLimiter where
  buckets : List (String × TokenBucket)
  capacity : Int
  refillRate : Int

deriving DecidableEq, Repr

/-- NewRateLimiter: empty bucket map. -/
def NewRateLimiter (capacity refillRate : Int) : RateLimiter :=
  { buckets := [], capacity := capacity, refillRate := refillRate }

/-- Substring of s before its first comma; the whole of s when s has no comma.
This is what getClientIP computes from X-Forwarded-For (no trimming). -/
def takeUntilComma (s : String) : String :=
  String.mk (s.data.takeWhile (fun c => c ≠ ','))

/-- getClientIP from ratelimit.go: the part of X-Forwarded-For before the
first comma when that header is non-empty, else X-Real-IP when non-empty,
else the raw remote address. The code performs no whitespace trimming. -/
def getClientIP (r : Request) : String :=
  if r.xForwardedFor ≠ "" then
    takeUntilComma r.xForwardedFor
  else if r.xRealIP ≠ "" then
    r.xRealIP
  else
    r.remoteAddr

/-- Look up the bucket of a client key in the bucket map. -/
def RateLimiter.findBucket (rl : RateLimiter) (clientIP : String) :
    Option TokenBucket :=
  (rl.buckets.find? (fun p => p.1 == clientIP)).map (·.2)

/-- Store a bucket under a client key (map insert / update). -/
def RateLimiter.putBucket (rl : RateLimiter) (clientIP : String)
    (tb : TokenBucket) : RateLimiter :=
  { rl with buckets :=
      (clientIP, tb) :: rl.buckets.filter (fun p => p.1 ≠ clientIP) }

/-- getBucket from ratelimit.go: return the existing bucket, or lazily create
one at full capacity. Returns the bucket together with the (possibly grown)
rate limiter state. -/
def RateLimiter.getBucket (rl : RateLimiter) (clientIP : String) (now : Nat) :
    TokenBucket × RateLimiter :=
  match rl.findBucket clientIP with
  | some b => (b, rl)
  | none =>
    let b := NewTokenBucket rl.capacity rl.refillRate now
    (b, rl.putBucket clientIP b)

/-- The Go conversion string(rune(v)): the one-character string holding the
code point v when v is a valid code point, and the replacement character
U+FFFD otherwise. This is how ratelimit.go renders the X-RateLimit-Limit
header value from the configured capacity. -/
def goRuneString (v : Int) : String :=
  if 0 ≤ v ∧ v ≤ 1114111 ∧ ¬(55296 ≤ v ∧ v ≤ 57343) then
    String.mk [Char.ofNat v.toNat]
  else
    String.mk [Char.ofNat 65533]

/-- RateLimiter.Wrap, one request: derive the client key, fetch or create the
bucket, try to consume one token. On rejection respond 429 with body
"Rate limit exceeded" and the two X-RateLimit headers; on admission set
X-RateLimit-Limit and pass the downstream response through. The downstream
handler is abstracted by the response it would produce. -/
def RateLimiter.wrap (rl : RateLimiter) (r : Request) (now : Nat)
    (next : HttpResponse) : HttpResponse × RateLimiter :=
  let clientIP := getClientIP r
  let (bucket, rl) := rl.getBucket clientIP now
  let (ok, bucket) := bucket.tryConsume now 1
  let rl := rl.putBucket clientIP bucket
  if ok then
    ({ next with
        headers := setHeader next.headers "X-RateLimit-Limit"
          (goRuneString rl.capacity) }, rl)
  else
    ({ status := 429
       body := "Rate limit exceeded"
       headers :=
         setHeader
           (setHeader [] "X-RateLimit-Limit" (goRuneString rl.capacity))
           "X-RateLimit-Remaining" "0" }, rl)

/-! ## Backends and load balancers (src/internal/loadbalancer) -/

/-- A backend as stored in the pool: URL, healthy flag, weight and the active
connection counter (HTTPBackend in interface.go). -/
structure Backend where
  url : String
  healthy : Bool
  weight : Int
  connections : Int

deriving DecidableEq, Repr, Inhabited

/-- The two selection errors of the balancers. The code surfaces them as
errors.New with the messages given by SelectErr.message below. -/
inductive SelectErr where
  | noBackends
  | noHealthy

deriving DecidableEq, Repr

/-- The Go error strings attached to the two selection errors. -/
def SelectErr.message : SelectErr → String
  | .noBackends => "no backends available"
  | .noHealthy => "no healthy backends available"

/-- UpdateBackendHealth (identical in all three balancers): linear scan by
URL, set the flag of the first match, no-op when the URL is unknown. -/
def updateBackendHealth (bs : List Backend) (url : String) (healthy : Bool) :
    List Backend :=
  match bs with
  | [] => []
  | b :: rest =>
    if b.url = url then { b with healthy := healthy } :: rest
    else b :: updateBackendHealth rest url healthy

/-! ### Round robin (interface.go, RoundRobinBalancer) -/

/-- Round-robin balancer state: the pool plus the current cursor. -/
structure RRState where
  backends : List Backend
  current : Nat

deriving DecidableEq, Repr

/-- NewRoundRobinBalancer: cursor starts at 0. -/
def NewRoundRobinBalancer (bs : List Backend) : RRState :=
  { backends := bs, current := 0 }

/-- The selection loop of RoundRobinBalancer.SelectBackend: probe the backend
at cur, advance the cursor modulo the pool size, return the probed backend
when healthy, stop with none when the cursor wraps back to start. The fuel
argument bounds the recursion; the caller passes the pool size, which the
loop never exceeds. -/
def rrLoop (bs : List Backend) (cur start fuel : Nat) : Option (Backend × Nat) :=
  match fuel with
  | 0 => none
  | fuel + 1 =>
    match bs[cur]? with
    | none => none
    | some b =>
      let nxt := (cur + 1) % bs.length
      if b.healthy then some (b, nxt)
      else if nxt = start then none
      else rrLoop bs nxt start fuel

/-- RoundRobinBalancer.SelectBackend: empty pool gives noBackends, a full
unsuccessful sweep gives noHealthy, otherwise the first healthy backend from
the cursor onward is returned and the cursor has advanced past it. -/
def selectRR (s : RRState) : Except SelectErr (Backend × RRState) :=
  if s.backends.isEmpty then .error .noBackends
  else
    match rrLoop s.backends s.current s.current s.backends.length with
    | some (b, cur) => .ok (b, { s with current := cur })
    | none => .error .noHealthy

/-! ### Least connections (least_connections.go) -/

/-- The scan of LeastConnectionsBalancer.SelectBackend: sel is the selected
backend so far, minC the minimum connection count so far with -1 as the
initial sentinel. Unhealthy backends are skipped; a healthy backend is taken
when the sentinel is still -1 or its count is strictly smaller. -/
def lcScan : List Backend → Option Backend → Int → Option Backend
  | [], sel, _ => sel
  | b :: rest, sel, minC =>
    if b.healthy then
      if minC = -1 ∨ b.connections < minC then lcScan rest (some b) b.connections
      else lcScan rest sel minC
    else lcScan rest sel minC

/-- LeastConnectionsBalancer.SelectBackend. -/
def selectLC (bs : List Backend) : Except SelectErr Backend :=
  if bs.isEmpty then .error .noBackends
  else
    match lcScan bs none (-1) with
    | some b => .ok b
    | none => .error .noHealthy

/-! ### Smooth weighted round robin (WeightedRoundRobinBalancer) -/

/-- Weighted round-robin balancer state: the pool and the parallel list of
current weights. -/
structure WRRState where
  backends : List Backend
  currentWeights : List Int

deriving DecidableEq, Repr

/-- NewWeightedRoundRobinBalancer: current weights start at zero. -/
def NewWeightedRoundRobinBalancer (bs : List Backend) : WRRState :=
  { backends := bs, currentWeights := List.replicate bs.length 0 }

/-- The single pass of WeightedRoundRobinBalancer.SelectBackend: for each
healthy backend add its weight to its current weight and track the running
maximum (maxW, initially -1) together with the index that attained it (sel,
initially none, the -1 sentinel of the code). Returns the updated current
weights, the selected index and the final maximum. -/
def wrrScan : List Backend → List Int → Nat → Int → Option Nat →
    List Int × Option Nat × Int
  | b :: bs, c :: cs, i, maxW, sel =>
    if b.healthy then
      let c2 := c + b.weight
      if c2 > maxW then
        let res := wrrScan bs cs (i + 1) c2 (some i)
        (c2 :: res.1, res.2)
      else
        let res := wrrScan bs cs (i + 1) maxW sel
        (c2 :: res.1, res.2)
    else
      let res := wrrScan bs cs (i + 1) maxW sel
      (c :: res.1, res.2)
  | _, cs, _, maxW, sel => (cs, sel, maxW)

/-- Sum of the weights of the healthy backends. -/
def totalHealthyWeight (bs : List Backend) : Int :=
  bs.foldl (fun acc b => if b.healthy then acc + b.weight else acc) 0

/-- WeightedRoundRobinBalancer.SelectBackend: run the combined additive and
max pass, fail with noHealthy when no index was selected, otherwise subtract
the total healthy weight from the selected current weight and return the
selected backend. On the noHealthy error the Go code has still performed the
additive pass on the stored current weights; the model drops that state
because no modelled property observes the state after a failed select. -/
def selectWRR (s : WRRState) : Except SelectErr (Backend × WRRState) :=
  if s.backends.isEmpty then .error .noBackends
  else
    match (wrrScan s.backends s.currentWeights 0 (-1) none).2.1 with
    | none => .error .noHealthy
    | some k =>
      .ok (s.backends.getD k default,
        { backends := s.backends
          currentWeights := (wrrScan s.backends s.currentWeights 0 (-1) none).1.set k ((wrrScan s.backends s.currentWeights 0 (-1) none).1.getD k 0 - totalHealthyWeight s.backends) })

/-! ## Forwarder header injection (src/internal/proxy/reverse_proxy.go) -/

/-- The custom Director of NewReverseProxy, restricted to its header effect:
after the stock single-host director has run, it sets X-Forwarded-By to the
literal "go-reverse-proxy" and X-Backend-URL to the URL of the selected
backend. -/
def reverseProxyDirector (backendURL : String) (hs : Headers) : Headers :=
  setHeader (setHeader hs "X-Forwarded-By" "go-reverse-proxy")
    "X-Backend-URL" backendURL

/-! ## Response cache (src/unnamed/part_002, package middleware) -/

/-- CacheEntry: captured response body, headers, status code and the absolute
expiry timestamp. The body (a Go byte slice) is modelled as a String. -/
structure CacheEntry where
  body : String
  headers : Headers
  statusCode : Int
  expiresAt : Nat

deriving DecidableEq, Repr

/-- CacheEntry.IsExpired: time.Now().After(expiresAt), that is strictly
after the expiry instant. -/
def CacheEntry.isExpired (e : CacheEntry) (now : Nat) : Bool :=
  e.expiresAt < now

/-- Cache: the entry map and the recency list are modelled together as one
association list in recency order (head = most recently used = the node right
after the dummy head; last = least recently used). currentSize is the size
counter the code maintains alongside; maxSize and ttl come from the
configuration. -/
structure Cache where
  entries : List (String × CacheEntry)
  maxSize : Int
  ttl : Nat
  currentSize : Int

deriving DecidableEq, Repr

/-- NewCache: empty map and list. -/
def NewCache (maxSize : Int) (ttl : Nat) : Cache :=
  { entries := [], maxSize := maxSize, ttl := ttl, currentSize := 0 }

/-- Map lookup by key. -/
def Cache.lookup (c : Cache) (key : String) : Option CacheEntry :=
  (c.entries.find? (fun p => p.1 == key)).map (·.2)

/-- Remove the node of a key from the combined map and recency list
(removeNode plus the map delete). -/
def eraseKey (l : List (String × CacheEntry)) (key : String) :
    List (String × CacheEntry) :=
  l.eraseP (fun p => p.1 == key)

/-- Cache.get: a missing key returns none; an expired entry is removed and
counts as a miss; a live entry is moved to the front and returned. -/
def Cache.get (c : Cache) (key : String) (now : Nat) :
    Option CacheEntry × Cache :=
  match c.lookup key with
  | none => (none, c)
  | some e =>
    if e.isExpired now then
      (none, { c with entries := eraseKey c.entries key
                      currentSize := c.currentSize - 1 })
    else
      (some e, { c with entries := (key, e) :: eraseKey c.entries key })

/-- Cache.evictLRU: drop the node before the dummy tail, the last of the
recency list. -/
def Cache.evictLRU (c : Cache) : Cache :=
  { c with entries := c.entries.dropLast, currentSize := c.currentSize - 1 }

/-- Cache.set: an existing key gets the new entry and moves to the front;
otherwise the new node is added at the front, and when the count now exceeds
maxSize the least recently used node is evicted. -/
def Cache.set (c : Cache) (key : String) (e : CacheEntry) : Cache :=
  match c.lookup key with
  | some _ => { c with entries := (key, e) :: eraseKey c.entries key }
  | none =>
    let c2 : Cache := { c with entries := (key, e) :: c.entries
                               currentSize := c.currentSize + 1 }
    if c2.currentSize > c2.maxSize then c2.evictLRU else c2

/-- generateCacheKey hashes the string URL|Accept|Accept-Encoding with MD5.
The hash is used only as a plain map key, so it is modelled by the pre-hash
string itself directly (MD5 collisions are ignored). -/
def generateCacheKey (r : Request) : String :=
  r.urlStr ++ "|" ++ r.accept ++ "|" ++ r.acceptEncoding

/-- Cache.Wrap, one request: non-GET requests bypass the cache; a hit is
served from the stored entry with X-Cache-Status HIT; on a miss the
downstream response (abstracted by the response value it produces) is
captured and, iff its status is 2xx, stored with expiry now + ttl. -/
def Cache.wrap (c : Cache) (r : Request) (now : Nat) (next : HttpResponse) :
    HttpResponse × Cache :=
  if r.method ≠ "GET" then (next, c)
  else
    match c.get (generateCacheKey r) now with
    | (some e, c1) =>
      ({ status := e.statusCode
         body := e.body
         headers := setHeader e.headers "X-Cache-Status" "HIT" }, c1)
    | (none, c1) =>
      if 200 ≤ next.status ∧ next.status < 300 then
        (next, c1.set (generateCacheKey r)
          { body := next.body
            headers := next.headers
            statusCode := next.status
            expiresAt := now + c1.ttl })
      else
        (next, c1)

/-- One observable cache operation: a lookup (with lazy expiry), a direct
insertion, or a full middleware pass. -/
inductive CacheOp where
  | get (key : String) (now : Nat)
  | set (key : String) (e : CacheEntry)
  | wrap (r : Request) (now : Nat) (next : HttpResponse)

deriving Repr

/-- Apply one operation to the cache state. -/
def Cache.applyOp (c : Cache) : CacheOp → Cache
  | .get key now => (c.get key now).2
  | .set key e => c.set key e
  | .wrap r now next => (c.wrap r now next).2

/-- Run a sequence of operations. -/
def Cache.runOps (c : Cache) (ops : List CacheOp) : Cache :=
  ops.foldl Cache.applyOp c

deriving instance DecidableEq for Except

/-! ## Claim C4: client key derivation -/

/-- A request whose X-Forwarded-For value carries whitespace around the
leftmost address. -/
def c4Request : Request :=
  { method := "GET", urlStr := "/a", accept := "", acceptEncoding := ""
    xForwardedFor := " 1.2.3.4 ,5.6.7.8", xRealIP := "", remoteAddr := "10.0.0.1:9999" }

/-- Spec-side definition for comparison with the code: removing the
whitespace around an address, which is what the claim asserts getClientIP
does (the code does not). -/
def specTrim (s : String) : String :=
  String.mk
    (((s.data.dropWhile Char.isWhitespace).reverse.dropWhile
        Char.isWhitespace).reverse)

/-- Witness for refill_floorSeconds: a concrete bucket refilled after 2.5
seconds gains floor(2.5) * rate tokens. -/
def c5Bucket : TokenBucket :=
  { capacity := 10, tokens := 3, refillRate := 2, lastRefill := 0 }

/-- Witness for firstRequest_ok on a concrete limiter without any
existing bucket. -/
def c10Limiter : RateLimiter := NewRateLimiter 2 1

def c10Request : Request :=
  { method := "GET", urlStr := "/", accept := "", acceptEncoding := ""
    xForwardedFor := "", xRealIP := "", remoteAddr := "9.9.9.9:1234" }

def c10Next : HttpResponse := { status := 200, body := "ok", headers := [] }

/-! ## Claim C2: rejected requests and the X-RateLimit-Limit header -/

/-- A limiter whose bucket for the client is empty, so the next request is
rejected. -/
def c2Limiter : RateLimiter :=
  { buckets := [("1.2.3.4",
      { capacity := 100, tokens := 0, refillRate := 1, lastRefill := 0 })]
    capacity := 100, refillRate := 1 }

def c2Request : Request :=
  { method := "GET", urlStr := "/", accept := "", acceptEncoding := ""
    xForwardedFor := "", xRealIP := "", remoteAddr := "1.2.3.4" }

def c2Next : HttpResponse := { status := 200, body := "ok", headers := [] }

/-! ## Claims C1 and C8: the weighted round-robin sentinel -/

/-- Three healthy backends of weight 1 each. -/
def wrrPool : List Backend :=
  [ { url := "http://b0", healthy := true, weight := 1, connections := 0 },
    { url := "http://b1", healthy := true, weight := 1, connections := 0 },
    { url := "http://b2", healthy := true, weight := 1, connections := 0 } ]

/-- Claim C8 counterexample: a reachable weighted round-robin state (see
selectWRR_sentinel_failure for the reaching run) in which the pool is
non-empty, a healthy backend exists, and select nevertheless returns the
NoHealthyBackend error, refuting that the error occurs exactly when no
backend is healthy. -/
def c8BadState : WRRState :=
  { backends :=
      [ { url := "http://b0", healthy := true, weight := 1, connections := 0 },
        { url := "http://b1", healthy := false, weight := 1, connections := 0 },
        { url := "http://b2", healthy := false, weight := 1, connections := 0 } ]
    currentWeights := [-2, 1, 1] }

/-- State ops never change the configured maximum size, and keep the size
counter equal to the number of entries; the entry count stays at most the
maximum. -/
def CacheInv (M : Int) (c : Cache) : Prop :=
  c.maxSize = M ∧ c.currentSize = c.entries.length ∧ (c.entries.length : Int) ≤ M

/-- Witness for cache_size_bound: two insertions into a cache of maximum
size one leave at most one entry. -/
def c7Entry : CacheEntry :=
  { body := "x", headers := [], statusCode := 200, expiresAt := 50 }

/-- The entry captured by the buffering response wrapper on a miss: the
downstream status, headers and body, expiring at now + ttl. -/
def capturedEntry (next : HttpResponse) (now ttl : Nat) : CacheEntry :=
  { body := next.body
    headers := next.headers
    statusCode := next.status
    expiresAt := now + ttl }

/-- Witness for cache_insert_on_miss on an empty cache and a 204 response. -/
def c6Cache : Cache := NewCache 10 5

def c6Request : Request :=
  { method := "GET", urlStr := "/w", accept := "a", acceptEncoding := "gz"
    xForwardedFor := "", xRealIP := "", remoteAddr := "2.2.2.2" }

def c6Next : HttpResponse := { status := 204, body := "nc", headers := [("A", "b")] }

/-- Witness for select_error_contract on concrete one-backend states. -/
def c8wB : Backend := { url := "http://w", healthy := true, weight := 2, connections := 0 }

def c8wRR : RRState := { backends := [c8wB], current := 0 }

def c8wWRR : WRRState := { backends := [c8wB], currentWeights := [0] }

/-! ## Claim C9: round-robin fairness -/

/-- Iterate selectRR, collecting the selected backends; none when any call
fails. -/
def rrRun (s : RRState) : Nat → Option (List Backend × RRState)
  | 0 => some ([], s)
  | N + 1 =>
    match selectRR s with
    | .ok (b, s2) =>
      match rrRun s2 N with
      | some (l, s3) => some (b :: l, s3)
      | none => none
    | .error _ => none

/-- Witness for roundRobin_fairness: three healthy backends, seven calls. -/
def c9Pool : List Backend :=
  [ { url := "http://r0", healthy := true, weight := 1, connections := 0 },
    { url := "http://r1", healthy := true, weight := 1, connections := 0 },
    { url := "http://r2", healthy := true, weight := 1, connections := 0 } ]

/-! ## Theorems -/

/-! ## Helper lemmas about headers -/

theorem getHeader_setHeader_self (hs : Headers) (k v : String) :
    getHeader (setHeader hs k v) k = some v := by
  simp [getHeader, setHeader]

theorem find?_filter_ne (l : Headers) (k k2 : String) (h : k2 ≠ k) :
    (l.filter (fun p => p.1 ≠ k)).find? (fun p => p.1 == k2) =
      l.find? (fun p => p.1 == k2) := by
  rw [List.find?_filter]
  congr 1
  funext a
  by_cases h2 : a.1 = k2
  · simp [h2, h]
  · simp [h2]

theorem getHeader_setHeader_other (hs : Headers) (k k2 v : String)
    (h : k2 ≠ k) : getHeader (setHeader hs k v) k2 = getHeader hs k2 := by
  have hne : (k == k2) = false := by
    simp only [beq_eq_false_iff_ne, ne_eq]
    exact fun hh => h hh.symm
  simp only [getHeader, setHeader, List.find?_cons, hne]
  rw [find?_filter_ne _ _ _ h]

/-! ## Claim C3: forwarder header injection -/

/-- Claim C3 counterexample: the forwarder sets X-Forwarded-By to the literal
string go-reverse-proxy, not to proxy as the claim states. -/
theorem forwardedBy_not_proxy :
    getHeader (reverseProxyDirector "http://b1:8080" []) "X-Forwarded-By" =
      some "go-reverse-proxy" ∧
    ("go-reverse-proxy" : String) ≠ "proxy" := by
  constructor
  · rfl
  · decide

/-- Claim C3 (amended): for every forwarded request the director injects
X-Forwarded-By with value go-reverse-proxy and X-Backend-URL with the URL of
the selected backend. -/
theorem director_injects_headers (backendURL : String) (hs : Headers) :
    getHeader (reverseProxyDirector backendURL hs) "X-Forwarded-By" =
      some "go-reverse-proxy" ∧
    getHeader (reverseProxyDirector backendURL hs) "X-Backend-URL" =
      some backendURL := by
  constructor
  · rw [reverseProxyDirector,
      getHeader_setHeader_other _ _ _ _ (by decide),
      getHeader_setHeader_self]
  · rw [reverseProxyDirector, getHeader_setHeader_self]

/-- Claim C4 counterexample: the code keeps the whitespace around the
leftmost X-Forwarded-For address; the claim says the key is trimmed. -/
theorem getClientIP_no_trim :
    getClientIP c4Request = " 1.2.3.4 " ∧
    specTrim (getClientIP c4Request) = "1.2.3.4" ∧
    getClientIP c4Request ≠ specTrim (getClientIP c4Request) := by
  refine ⟨rfl, by decide, by decide⟩

theorem dropWhile_head_not {α : Type} (p : α → Bool) :
    ∀ (l : List α) (x : α) (xs : List α), l.dropWhile p = x :: xs → p x = false := by
  intro l
  induction l with
  | nil => intro x xs h; simp [List.dropWhile] at h
  | cons a t ih =>
    intro x xs h
    rw [List.dropWhile_cons] at h
    by_cases ha : p a = true
    · rw [if_pos ha] at h
      exact ih x xs h
    · rw [if_neg ha] at h
      cases h
      simpa using ha

/-- Claim C4 (amended): the client key is, in priority order, the untrimmed
part of X-Forwarded-For before its first comma when that header is non-empty,
else X-Real-IP when non-empty, else the raw remote address; no whitespace
trimming is performed. -/
theorem clientKey_characterization (r : Request) :
    (r.xForwardedFor ≠ "" →
      ∃ rest, r.xForwardedFor.data = (getClientIP r).data ++ rest ∧
        (∀ ch ∈ (getClientIP r).data, ch ≠ ',') ∧
        (rest = [] ∨ ∃ rest2, rest = ',' :: rest2)) ∧
    (r.xForwardedFor = "" → r.xRealIP ≠ "" → getClientIP r = r.xRealIP) ∧
    (r.xForwardedFor = "" → r.xRealIP = "" → getClientIP r = r.remoteAddr) := by
  refine ⟨?_, ?_, ?_⟩
  · intro h
    have hip : getClientIP r = takeUntilComma r.xForwardedFor := by
      unfold getClientIP
      rw [if_pos h]
    refine ⟨r.xForwardedFor.data.dropWhile (fun c => c ≠ ','), ?_, ?_, ?_⟩
    · rw [hip]
      show r.xForwardedFor.data =
        (r.xForwardedFor.data.takeWhile (fun c => c ≠ ',')) ++ _
      exact (List.takeWhile_append_dropWhile ..).symm
    · intro ch hch
      rw [hip] at hch
      have := List.mem_takeWhile_imp hch
      simpa using this
    · cases hd : r.xForwardedFor.data.dropWhile (fun c => c ≠ ',') with
      | nil => exact Or.inl rfl
      | cons x xs =>
        refine Or.inr ⟨xs, ?_⟩
        have hx := dropWhile_head_not _ _ x xs hd
        have : x = ',' := by simpa using hx
        rw [this]
  · intro h1 h2
    unfold getClientIP
    rw [if_neg (by simp [h1]), if_pos h2]
  · intro h1 h2
    unfold getClientIP
    simp [h1, h2]

/-- Witness for clientKey_characterization at a concrete request with a
non-empty X-Forwarded-For header. -/
theorem clientKey_characterization_witness :
    ∃ rest, c4Request.xForwardedFor.data = (getClientIP c4Request).data ++ rest ∧
      (∀ ch ∈ (getClientIP c4Request).data, ch ≠ ',') ∧
      (rest = [] ∨ ∃ rest2, rest = ',' :: rest2) :=
  (clientKey_characterization c4Request).1 (by decide)

/-! ## Claim C5: refill semantics -/

/-- Claim C5: on refill after elapsed time e, tokensToAdd = floor(e in
seconds) * refillRate; the token count becomes min(tokens + tokensToAdd,
capacity); lastRefill advances to now exactly when tokensToAdd is strictly
positive; and the result never exceeds capacity. Stated for buckets
satisfying the bucket invariant tokens ≤ capacity and a non-negative
configured rate. -/
theorem refill_floorSeconds (tb : TokenBucket) (now : Nat)
    (h1 : tb.tokens ≤ tb.capacity) (h2 : 0 ≤ tb.refillRate) :
    (tb.refill now).tokens =
      min (tb.tokens + (((now - tb.lastRefill) / nsPerSec : Nat) : Int) * tb.refillRate)
        tb.capacity ∧
    (tb.refill now).lastRefill =
      (if 0 < (((now - tb.lastRefill) / nsPerSec : Nat) : Int) * tb.refillRate
       then now else tb.lastRefill) ∧
    (tb.refill now).tokens ≤ tb.capacity := by
  unfold TokenBucket.refill
  set A : Int := (((now - tb.lastRefill) / nsPerSec : Nat) : Int) * tb.refillRate with hA
  have hA0 : 0 ≤ A := mul_nonneg (Int.ofNat_nonneg _) h2
  by_cases hpos : A > 0
  · rw [if_pos hpos, if_pos hpos]
    refine ⟨?_, rfl, ?_⟩
    · dsimp only
      rw [min_def]
      split <;> split <;> omega
    · dsimp only
      split <;> omega
  · rw [if_neg hpos, if_neg hpos]
    have hz : A = 0 := le_antisymm (not_lt.mp hpos) hA0
    refine ⟨?_, rfl, h1⟩
    rw [hz, add_zero, min_eq_left h1]

theorem refill_floorSeconds_witness :
    (c5Bucket.refill 2500000000).tokens =
      min (c5Bucket.tokens +
        (((2500000000 - c5Bucket.lastRefill) / nsPerSec : Nat) : Int) * c5Bucket.refillRate)
        c5Bucket.capacity ∧
    (c5Bucket.refill 2500000000).lastRefill =
      (if 0 < (((2500000000 - c5Bucket.lastRefill) / nsPerSec : Nat) : Int) * c5Bucket.refillRate
       then 2500000000 else c5Bucket.lastRefill) ∧
    (c5Bucket.refill 2500000000).tokens ≤ c5Bucket.capacity :=
  refill_floorSeconds c5Bucket 2500000000 (by decide) (by decide)

/-! ## Claim C10: lazily created buckets start full -/

theorem findBucket_putBucket_self (rl : RateLimiter) (ip : String)
    (b : TokenBucket) : (rl.putBucket ip b).findBucket ip = some b := by
  simp [RateLimiter.putBucket, RateLimiter.findBucket, List.find?_cons]

theorem refill_fresh (c r : Int) (now : Nat) :
    (NewTokenBucket c r now).refill now = NewTokenBucket c r now := by
  unfold TokenBucket.refill NewTokenBucket
  simp [Nat.sub_self]

theorem tryConsume_fresh (c r : Int) (now : Nat) (hc : 1 ≤ c) :
    (NewTokenBucket c r now).tryConsume now 1 =
      (true, { capacity := c, tokens := c - 1, refillRate := r,
               lastRefill := now }) := by
  unfold TokenBucket.tryConsume
  rw [refill_fresh]
  unfold NewTokenBucket
  dsimp only
  rw [if_pos hc]

/-- Claim C10: a bucket created for a previously unseen client key starts at
full capacity, and when the configured capacity is at least 1 the first
request of that client is admitted (the response passes the downstream
response through) and leaves the client bucket with capacity - 1 tokens. -/
theorem firstRequest_ok (rl : RateLimiter) (r : Request) (now : Nat)
    (next : HttpResponse)
    (hnew : rl.findBucket (getClientIP r) = none)
    (hcap : 1 ≤ rl.capacity) :
    (rl.getBucket (getClientIP r) now).1.tokens =
      (rl.getBucket (getClientIP r) now).1.capacity ∧
    (rl.wrap r now next).1.status = next.status ∧
    (rl.wrap r now next).1.body = next.body ∧
    (rl.wrap r now next).2.findBucket (getClientIP r) =
      some { capacity := rl.capacity, tokens := rl.capacity - 1,
             refillRate := rl.refillRate, lastRefill := now } := by
  have hget : rl.getBucket (getClientIP r) now =
      (NewTokenBucket rl.capacity rl.refillRate now,
       rl.putBucket (getClientIP r) (NewTokenBucket rl.capacity rl.refillRate now)) := by
    unfold RateLimiter.getBucket
    rw [hnew]
  have htc := tryConsume_fresh rl.capacity rl.refillRate now hcap
  refine ⟨by rw [hget]; rfl, ?_, ?_, ?_⟩ <;>
    simp [RateLimiter.wrap, hget, htc, findBucket_putBucket_self]

theorem firstRequest_ok_witness :
    (c10Limiter.getBucket (getClientIP c10Request) 7).1.tokens =
      (c10Limiter.getBucket (getClientIP c10Request) 7).1.capacity ∧
    (c10Limiter.wrap c10Request 7 c10Next).1.status = c10Next.status ∧
    (c10Limiter.wrap c10Request 7 c10Next).1.body = c10Next.body ∧
    (c10Limiter.wrap c10Request 7 c10Next).2.findBucket (getClientIP c10Request) =
      some { capacity := c10Limiter.capacity, tokens := c10Limiter.capacity - 1,
             refillRate := c10Limiter.refillRate, lastRefill := 7 } :=
  firstRequest_ok c10Limiter c10Request 7 c10Next (by decide) (by decide)

/-- Claim C2 at the failing input: a rejected request does get status 429,
body "Rate limit exceeded" and X-RateLimit-Remaining 0, but X-RateLimit-Limit
carries string(rune(100)) = "d", the single code point 100, and not the
decimal rendering "100" of the configured capacity. -/
theorem rateLimitLimit_header_is_code_point :
    (c2Limiter.wrap c2Request 0 c2Next).1.status = 429 ∧
    (c2Limiter.wrap c2Request 0 c2Next).1.body = "Rate limit exceeded" ∧
    getHeader (c2Limiter.wrap c2Request 0 c2Next).1.headers
      "X-RateLimit-Remaining" = some "0" ∧
    getHeader (c2Limiter.wrap c2Request 0 c2Next).1.headers
      "X-RateLimit-Limit" = some "d" ∧
    ("d" : String) ≠ "100" := by
  decide

/-- Claim C1 at the failing input: from the initial state, one select returns
backend 0 and leaves current weights [-2, 1, 1]; after the health loop marks
backends 1 and 2 unhealthy, the pool still contains a healthy backend, yet
select returns the NoHealthyBackend error instead of backend 0 (the claim and
the specified algorithm demand backend 0, whose updated current weight -1 is
the maximum among healthy backends, but the code compares against the
sentinel maxCurrentWeight = -1 with a strict inequality). -/
theorem selectWRR_sentinel_failure :
    selectWRR (NewWeightedRoundRobinBalancer wrrPool) =
      .ok ({ url := "http://b0", healthy := true, weight := 1, connections := 0 },
           { backends := wrrPool, currentWeights := [-2, 1, 1] }) ∧
    (let s2 : WRRState :=
      { backends :=
          updateBackendHealth
            (updateBackendHealth wrrPool "http://b1" false) "http://b2" false
        currentWeights := [-2, 1, 1] }
     (s2.backends.any (fun b => b.healthy)) = true ∧
     selectWRR s2 = .error .noHealthy) := by
  decide

theorem selectWRR_noHealthy_with_healthy_present :
    selectWRR c8BadState = .error .noHealthy ∧
    (∃ b ∈ c8BadState.backends, b.healthy = true) ∧
    c8BadState.backends =
      updateBackendHealth
        (updateBackendHealth wrrPool "http://b1" false) "http://b2" false := by
  refine ⟨by decide, ⟨c8BadState.backends.head (by decide), by decide⟩, by decide⟩

/-! ## Cache lemmas -/

theorem length_eraseKey (l : List (String × CacheEntry)) (key : String)
    (x : String × CacheEntry) (h : l.find? (fun p => p.1 == key) = some x) :
    (eraseKey l key).length + 1 = l.length := by
  have hp := List.find?_some h
  exact List.length_eraseP_add_one (List.mem_of_find?_eq_some h) hp

theorem cacheInv_get (M : Int) (c : Cache) (key : String) (now : Nat)
    (h : CacheInv M c) : CacheInv M (c.get key now).2 := by
  obtain ⟨h0, h1, h2⟩ := h
  unfold Cache.get
  cases hf : c.lookup key with
  | none => exact ⟨h0, h1, h2⟩
  | some e =>
    unfold Cache.lookup at hf
    obtain ⟨x, hx, -⟩ := Option.map_eq_some'.mp hf
    have hlen : (eraseKey c.entries key).length + 1 = c.entries.length :=
      length_eraseKey c.entries key x hx
    dsimp only
    cases hexp : e.isExpired now with
    | true =>
      rw [if_pos rfl]
      refine ⟨h0, ?_, ?_⟩
      · show c.currentSize - 1 = ((eraseKey c.entries key).length : Int)
        omega
      · show ((eraseKey c.entries key).length : Int) ≤ M
        omega
    | false =>
      rw [if_neg Bool.false_ne_true]
      refine ⟨h0, ?_, ?_⟩
      · show c.currentSize = (((key, e) :: eraseKey c.entries key).length : Int)
        rw [List.length_cons]
        omega
      · show ((((key, e) :: eraseKey c.entries key)).length : Int) ≤ M
        rw [List.length_cons]
        omega

theorem cacheInv_set (M : Int) (c : Cache) (key : String) (e : CacheEntry)
    (h : CacheInv M c) : CacheInv M (c.set key e) := by
  obtain ⟨h0, h1, h2⟩ := h
  unfold Cache.set
  cases hf : c.lookup key with
  | some x =>
    unfold Cache.lookup at hf
    obtain ⟨y, hy, -⟩ := Option.map_eq_some'.mp hf
    have hlen : (eraseKey c.entries key).length + 1 = c.entries.length :=
      length_eraseKey c.entries key y hy
    dsimp only
    refine ⟨h0, ?_, ?_⟩
    · show c.currentSize = (((key, e) :: eraseKey c.entries key).length : Int)
      rw [List.length_cons]
      omega
    · show ((((key, e) :: eraseKey c.entries key)).length : Int) ≤ M
      rw [List.length_cons]
      omega
  | none =>
    dsimp only
    split
    · rename_i hgt
      have hgt2 : c.currentSize + 1 > c.maxSize := hgt
      unfold Cache.evictLRU
      refine ⟨h0, ?_, ?_⟩
      · show c.currentSize + 1 - 1 = ((((key, e) :: c.entries).dropLast).length : Int)
        rw [List.length_dropLast, List.length_cons]
        omega
      · show (((((key, e) :: c.entries).dropLast)).length : Int) ≤ M
        rw [List.length_dropLast, List.length_cons]
        omega
    · rename_i hgt
      have hgt2 : ¬(c.currentSize + 1 > c.maxSize) := hgt
      refine ⟨h0, ?_, ?_⟩
      · show c.currentSize + 1 = (((key, e) :: c.entries).length : Int)
        rw [List.length_cons]
        omega
      · show ((((key, e) :: c.entries)).length : Int) ≤ M
        rw [List.length_cons]
        omega

theorem cacheInv_wrap (M : Int) (c : Cache) (r : Request) (now : Nat)
    (next : HttpResponse) (h : CacheInv M c) : CacheInv M (c.wrap r now next).2 := by
  unfold Cache.wrap
  by_cases hm : r.method ≠ "GET"
  · simpa [hm] using h
  · rw [if_neg (by simpa using hm)]
    have hg := cacheInv_get M c (generateCacheKey r) now h
    cases hget : c.get (generateCacheKey r) now with
    | mk fst snd =>
      rw [hget] at hg
      cases fst with
      | some e => exact hg
      | none =>
        dsimp only
        split
        · exact cacheInv_set M snd _ _ hg
        · exact hg

theorem cacheInv_runOps (M : Int) (c : Cache) (ops : List CacheOp)
    (h : CacheInv M c) : CacheInv M (c.runOps ops) := by
  induction ops generalizing c with
  | nil => exact h
  | cons op rest ih =>
    unfold Cache.runOps at *
    cases op with
    | get key now => exact ih _ (cacheInv_get M c key now h)
    | set key e => exact ih _ (cacheInv_set M c key e h)
    | wrap r now next => exact ih _ (cacheInv_wrap M c r now next h)

/-! ## Claim C7: cache size bound -/

/-- Claim C7: starting from an empty cache with any non-negative maxSize, no
sequence of cache operations (lookups with lazy expiry, insertions with their
evictions, full middleware passes) ever makes the number of entries exceed
maxSize. -/
theorem cache_size_bound (maxSize : Int) (ttl : Nat) (ops : List CacheOp)
    (h : 0 ≤ maxSize) :
    (((NewCache maxSize ttl).runOps ops).entries.length : Int) ≤ maxSize := by
  have hinv : CacheInv maxSize (NewCache maxSize ttl) := by
    refine ⟨rfl, rfl, ?_⟩
    simpa [NewCache] using h
  exact (cacheInv_runOps maxSize _ ops hinv).2.2

theorem cache_size_bound_witness :
    (((NewCache 1 0).runOps
        [CacheOp.set "a" c7Entry, CacheOp.set "b" c7Entry]).entries.length : Int) ≤ 1 :=
  cache_size_bound 1 0 [CacheOp.set "a" c7Entry, CacheOp.set "b" c7Entry] (by decide)

/-! ## Claim C6: insertion on a cache miss -/

theorem find?_eraseKey_self (l : List (String × CacheEntry)) (key : String)
    (hnd : (l.map Prod.fst).Nodup) :
    (eraseKey l key).find? (fun p => p.1 == key) = none := by
  induction l with
  | nil => rfl
  | cons p t ih =>
    rw [List.map_cons, List.nodup_cons] at hnd
    unfold eraseKey
    by_cases hp1 : p.1 = key
    · rw [List.eraseP_cons_of_pos (by simp [hp1])]
      rw [List.find?_eq_none]
      intro x hx
      simp only [beq_iff_eq]
      intro hxk
      exact hnd.1 (by rw [hp1, ← hxk]; exact List.mem_map_of_mem Prod.fst hx)
    · rw [List.eraseP_cons_of_neg (by simp [hp1])]
      rw [List.find?_cons_of_neg _ (by simp [hp1])]
      exact ih hnd.2

theorem get_fields (c : Cache) (key : String) (now : Nat) :
    ((c.get key now).2).maxSize = c.maxSize ∧ ((c.get key now).2).ttl = c.ttl := by
  unfold Cache.get
  cases c.lookup key with
  | none => exact ⟨rfl, rfl⟩
  | some e =>
    dsimp only
    split
    · exact ⟨rfl, rfl⟩
    · exact ⟨rfl, rfl⟩

theorem get_sizeSync (c : Cache) (key : String) (now : Nat)
    (h : c.currentSize = c.entries.length) :
    ((c.get key now).2).currentSize = ((c.get key now).2).entries.length := by
  unfold Cache.get
  cases hf : c.lookup key with
  | none => exact h
  | some e =>
    unfold Cache.lookup at hf
    obtain ⟨x, hx, -⟩ := Option.map_eq_some'.mp hf
    have hlen : (eraseKey c.entries key).length + 1 = c.entries.length :=
      length_eraseKey c.entries key x hx
    dsimp only
    cases hexp : e.isExpired now with
    | true =>
      rw [if_pos rfl]
      show c.currentSize - 1 = ((eraseKey c.entries key).length : Int)
      omega
    | false =>
      rw [if_neg Bool.false_ne_true]
      show c.currentSize = (((key, e) :: eraseKey c.entries key).length : Int)
      rw [List.length_cons]
      omega

theorem get_miss_lookup_none (c : Cache) (key : String) (now : Nat)
    (hnd : (c.entries.map Prod.fst).Nodup)
    (h : (c.get key now).1 = none) :
    ((c.get key now).2).lookup key = none := by
  unfold Cache.get at h ⊢
  cases hf : c.lookup key with
  | none => exact hf
  | some e =>
    rw [hf] at h
    dsimp only at h ⊢
    cases hexp : e.isExpired now with
    | true =>
      rw [if_pos rfl]
      unfold Cache.lookup
      exact (find?_eraseKey_self c.entries key hnd).symm ▸ rfl
    | false =>
      rw [hexp] at h
      rw [if_neg Bool.false_ne_true] at h
      exact absurd h (by simp)

theorem head?_dropLast_cons {α : Type} (a : α) (l : List α) (h : l ≠ []) :
    ((a :: l).dropLast).head? = some a := by
  cases l with
  | nil => exact absurd rfl h
  | cons b t => rfl

/-- Claim C6: for a GET request that misses the cache, a new entry capturing
the downstream status, headers and body with expiresAt = now + ttl is
inserted at the list head iff the downstream status is in [200, 300), the
tail is evicted iff the insertion makes the count exceed maxSize, and a
non-2xx response leaves the cache exactly as the lookup left it. Stated for
caches whose keys are distinct and whose size counter agrees with the entry
count, both invariants of reachable cache states. -/
theorem cache_insert_on_miss (c : Cache) (r : Request) (now : Nat)
    (next : HttpResponse)
    (hm : r.method = "GET")
    (hnd : (c.entries.map Prod.fst).Nodup)
    (hsz : c.currentSize = c.entries.length)
    (hmiss : (c.get (generateCacheKey r) now).1 = none) :
    ((200 ≤ next.status ∧ next.status < 300) →
      (c.wrap r now next).2.entries =
        (if (((c.get (generateCacheKey r) now).2.entries.length : Int) + 1 > c.maxSize)
         then ((generateCacheKey r, capturedEntry next now c.ttl) ::
                (c.get (generateCacheKey r) now).2.entries).dropLast
         else (generateCacheKey r, capturedEntry next now c.ttl) ::
                (c.get (generateCacheKey r) now).2.entries)) ∧
    ((1 : Int) ≤ c.maxSize → (200 ≤ next.status ∧ next.status < 300) →
      (c.wrap r now next).2.entries.head? =
        some (generateCacheKey r, capturedEntry next now c.ttl)) ∧
    (¬(200 ≤ next.status ∧ next.status < 300) →
      (c.wrap r now next).2 = (c.get (generateCacheKey r) now).2) := by
  have hml := get_miss_lookup_none c (generateCacheKey r) now hnd hmiss
  have hsz1 := get_sizeSync c (generateCacheKey r) now hsz
  have hfields := get_fields c (generateCacheKey r) now
  have hwrap : (c.wrap r now next).2 =
      (if 200 ≤ next.status ∧ next.status < 300
       then ((c.get (generateCacheKey r) now).2).set (generateCacheKey r)
              { body := next.body, headers := next.headers,
                statusCode := next.status,
                expiresAt := now + ((c.get (generateCacheKey r) now).2).ttl }
       else (c.get (generateCacheKey r) now).2) := by
    unfold Cache.wrap
    rw [if_neg (by simp [hm])]
    cases hget : c.get (generateCacheKey r) now with
    | mk fst snd =>
      have hfn : fst = none := by rw [hget] at hmiss; exact hmiss
      subst hfn
      dsimp only
      by_cases h2 : 200 ≤ next.status ∧ next.status < 300
      · rw [if_pos h2, if_pos h2]
      · rw [if_neg h2, if_neg h2]
  have hmain : ∀ _h2 : 200 ≤ next.status ∧ next.status < 300,
      (c.wrap r now next).2.entries =
        (if (((c.get (generateCacheKey r) now).2.entries.length : Int) + 1 > c.maxSize)
         then ((generateCacheKey r, capturedEntry next now c.ttl) ::
                (c.get (generateCacheKey r) now).2.entries).dropLast
         else (generateCacheKey r, capturedEntry next now c.ttl) ::
                (c.get (generateCacheKey r) now).2.entries) := by
    intro h2
    rw [hwrap, if_pos h2, hfields.2]
    unfold Cache.set
    rw [hml]
    dsimp only
    by_cases hcond : (((c.get (generateCacheKey r) now).2.entries.length : Int) + 1 > c.maxSize)
    · rw [if_pos (show _ > _ by rw [hsz1, hfields.1]; exact hcond)]
      rw [if_pos hcond]
      unfold Cache.evictLRU
      rfl
    · rw [if_neg (show ¬(_ > _) by rw [hsz1, hfields.1]; exact hcond)]
      rw [if_neg hcond]
      rfl
  refine ⟨hmain, ?_, ?_⟩
  · intro hM h2
    rw [hmain h2]
    by_cases hcond : (((c.get (generateCacheKey r) now).2.entries.length : Int) + 1 > c.maxSize)
    · rw [if_pos hcond]
      apply head?_dropLast_cons
      intro hempty
      rw [hempty] at hcond
      simp at hcond
      omega
    · rw [if_neg hcond]
      rfl
  · intro h2
    rw [hwrap, if_neg h2]

theorem cache_insert_on_miss_witness :
    ((200 ≤ c6Next.status ∧ c6Next.status < 300) →
      (c6Cache.wrap c6Request 3 c6Next).2.entries =
        (if (((c6Cache.get (generateCacheKey c6Request) 3).2.entries.length : Int) + 1 > c6Cache.maxSize)
         then ((generateCacheKey c6Request, capturedEntry c6Next 3 c6Cache.ttl) ::
                (c6Cache.get (generateCacheKey c6Request) 3).2.entries).dropLast
         else (generateCacheKey c6Request, capturedEntry c6Next 3 c6Cache.ttl) ::
                (c6Cache.get (generateCacheKey c6Request) 3).2.entries)) ∧
    ((1 : Int) ≤ c6Cache.maxSize → (200 ≤ c6Next.status ∧ c6Next.status < 300) →
      (c6Cache.wrap c6Request 3 c6Next).2.entries.head? =
        some (generateCacheKey c6Request, capturedEntry c6Next 3 c6Cache.ttl)) ∧
    (¬(200 ≤ c6Next.status ∧ c6Next.status < 300) →
      (c6Cache.wrap c6Request 3 c6Next).2 =
        (c6Cache.get (generateCacheKey c6Request) 3).2) :=
  cache_insert_on_miss c6Cache c6Request 3 c6Next rfl (by decide) (by decide) (by decide)

/-! ## Round-robin loop lemmas -/

theorem rrLoop_ok_healthy :
    ∀ (fuel : Nat) (bs : List Backend) (cur start : Nat) (b : Backend) (nxt : Nat),
      rrLoop bs cur start fuel = some (b, nxt) → b ∈ bs ∧ b.healthy = true := by
  intro fuel
  induction fuel with
  | zero =>
    intro bs cur start b nxt h
    simp [rrLoop] at h
  | succ f ih =>
    intro bs cur start b nxt h
    rw [rrLoop] at h
    cases hg : bs[cur]? with
    | none =>
      rw [hg] at h
      exact absurd h (by simp)
    | some a =>
      rw [hg] at h
      dsimp only at h
      by_cases ha : a.healthy = true
      · rw [if_pos ha] at h
        have hba : a = b := by
          have := Option.some.inj h
          exact congrArg Prod.fst this
        rw [← hba]
        exact ⟨List.getElem?_mem hg, ha⟩
      · rw [if_neg ha] at h
        by_cases hn : (cur + 1) % bs.length = start
        · rw [if_pos hn] at h
          exact absurd h (by simp)
        · rw [if_neg hn] at h
          exact ih bs _ start b nxt h

theorem rrLoop_none_of_all_unhealthy (bs : List Backend)
    (hall : ∀ b ∈ bs, b.healthy = false) :
    ∀ (fuel cur start : Nat), rrLoop bs cur start fuel = none := by
  intro fuel
  induction fuel with
  | zero => intro cur start; rfl
  | succ f ih =>
    intro cur start
    rw [rrLoop]
    cases hg : bs[cur]? with
    | none => rfl
    | some a =>
      dsimp only
      have ha : ¬a.healthy = true := by
        rw [hall a (List.getElem?_mem hg)]
        simp
      rw [if_neg ha]
      by_cases hn : (cur + 1) % bs.length = start
      · rw [if_pos hn]
      · rw [if_neg hn]
        exact ih _ start

theorem rrLoop_isSome_of_healthy (bs : List Backend) (start : Nat) :
    ∀ (fuel cur : Nat), cur < bs.length → 0 < fuel → fuel ≤ bs.length →
      (cur + fuel) % bs.length = start →
      (∃ j, j < fuel ∧ (bs.getD ((cur + j) % bs.length) default).healthy = true) →
      (rrLoop bs cur start fuel).isSome := by
  intro fuel
  induction fuel with
  | zero =>
    intro cur _ h0
    exact absurd h0 (by omega)
  | succ f ih =>
    intro cur hcur _ hle hmod hex
    have hn : 0 < bs.length := by omega
    rw [rrLoop]
    rw [List.getElem?_eq_getElem hcur]
    dsimp only
    by_cases ha : bs[cur].healthy = true
    · rw [if_pos ha]
      rfl
    · rw [if_neg ha]
      obtain ⟨j, hj, hjh⟩ := hex
      have hj0 : j ≠ 0 := by
        rintro rfl
        rw [Nat.add_zero, Nat.mod_eq_of_lt hcur] at hjh
        rw [List.getD_eq_getElem?_getD, List.getElem?_eq_getElem hcur] at hjh
        exact ha hjh
      have hf1 : 1 ≤ f := by omega
      have hnxt : (cur + 1) % bs.length ≠ start := by
        intro he
        have h1 : (cur + 1 + f) % bs.length = (cur + 1) % bs.length := by
          rw [show cur + 1 + f = cur + (f + 1) by omega, hmod, he]
        have h2 : f ≡ 0 [MOD bs.length] := by
          refine Nat.ModEq.add_left_cancel' (cur + 1) ?_
          show (cur + 1 + f) % bs.length = (cur + 1 + 0) % bs.length
          rw [h1, Nat.add_zero]
        have h3 : f % bs.length = 0 := by
          simpa [Nat.ModEq] using h2
        rw [Nat.mod_eq_of_lt (by omega)] at h3
        omega
      rw [if_neg hnxt]
      refine ih ((cur + 1) % bs.length) (Nat.mod_lt _ hn) (by omega) (by omega) ?_ ?_
      · rw [Nat.mod_add_mod, show cur + 1 + f = cur + (f + 1) by omega]
        exact hmod
      · refine ⟨j - 1, by omega, ?_⟩
        rw [Nat.mod_add_mod, show cur + 1 + (j - 1) = cur + j by omega]
        exact hjh

theorem rrLoop_none_iff (bs : List Backend) (start : Nat)
    (h : start < bs.length) :
    rrLoop bs start start bs.length = none ↔ ∀ b ∈ bs, b.healthy = false := by
  constructor
  · intro hnone
    by_contra hq
    push_neg at hq
    obtain ⟨b, hb, hbh⟩ := hq
    have hbt : b.healthy = true := by
      cases hx : b.healthy
      · exact absurd hx hbh
      · rfl
    obtain ⟨i, hi, hieq⟩ := List.mem_iff_getElem.mp hb
    have hn : 0 < bs.length := by omega
    have hjkey : (start + (bs.length + i - start) % bs.length) % bs.length = i := by
      rw [Nat.add_mod_mod, show start + (bs.length + i - start) = bs.length + i by omega,
        Nat.add_comm bs.length i, Nat.add_mod_right, Nat.mod_eq_of_lt hi]
    have hsome := rrLoop_isSome_of_healthy bs start bs.length start h hn (le_refl _)
      (by rw [Nat.add_comm, Nat.add_mod_left, Nat.mod_eq_of_lt h])
      ⟨(bs.length + i - start) % bs.length, Nat.mod_lt _ hn, by
        rw [hjkey, List.getD_eq_getElem?_getD, List.getElem?_eq_getElem hi]
        dsimp only [Option.getD]
        rw [hieq]
        exact hbt⟩
    rw [hnone] at hsome
    exact absurd hsome (by simp)
  · intro hall
    exact rrLoop_none_of_all_unhealthy bs hall bs.length start start

/-! ## Least-connections scan lemmas -/

theorem lcScan_none_sel :
    ∀ (bs : List Backend) (sel : Option Backend) (minC : Int),
      lcScan bs sel minC = none → sel = none := by
  intro bs
  induction bs with
  | nil => intro sel minC h; exact h
  | cons b t ih =>
    intro sel minC h
    simp only [lcScan] at h
    by_cases hb : b.healthy = true
    · rw [if_pos hb] at h
      by_cases hc : (minC = -1 ∨ b.connections < minC)
      · rw [if_pos hc] at h
        exact absurd (ih _ _ h) (by simp)
      · rw [if_neg hc] at h
        exact ih _ _ h
    · rw [if_neg hb] at h
      exact ih _ _ h

theorem lcScan_some_healthy :
    ∀ (bs : List Backend) (sel : Option Backend) (minC : Int),
      (∀ b, sel = some b → b.healthy = true) →
      ∀ b, lcScan bs sel minC = some b → b.healthy = true := by
  intro bs
  induction bs with
  | nil => intro sel minC hinv b h; exact hinv b h
  | cons a t ih =>
    intro sel minC hinv b h
    simp only [lcScan] at h
    by_cases ha : a.healthy = true
    · rw [if_pos ha] at h
      by_cases hc : (minC = -1 ∨ a.connections < minC)
      · rw [if_pos hc] at h
        refine ih _ _ ?_ b h
        intro x hx
        rw [← Option.some.inj hx]
        exact ha
      · rw [if_neg hc] at h
        exact ih _ _ hinv b h
    · rw [if_neg ha] at h
      exact ih _ _ hinv b h

theorem lcScan_none_of_all (bs : List Backend)
    (hall : ∀ b ∈ bs, b.healthy = false) :
    ∀ minC : Int, lcScan bs none minC = none := by
  induction bs with
  | nil => intro minC; rfl
  | cons b t ih =>
    intro minC
    simp only [lcScan]
    rw [if_neg (by rw [hall b (List.mem_cons_self b t)]; simp)]
    exact ih (fun x hx => hall x (List.mem_cons_of_mem b hx)) minC

theorem lcScan_ne_none_of_healthy :
    ∀ (bs : List Backend) (sel : Option Backend) (minC : Int),
      (sel = none → minC = -1) →
      (∃ b ∈ bs, b.healthy = true) →
      lcScan bs sel minC ≠ none := by
  intro bs
  induction bs with
  | nil =>
    intro sel minC _ hex
    obtain ⟨b, hb, -⟩ := hex
    exact absurd hb (List.not_mem_nil b)
  | cons a t ih =>
    intro sel minC hinv hex hnone
    simp only [lcScan] at hnone
    by_cases ha : a.healthy = true
    · rw [if_pos ha] at hnone
      by_cases hc : (minC = -1 ∨ a.connections < minC)
      · rw [if_pos hc] at hnone
        exact absurd (lcScan_none_sel t _ _ hnone) (by simp)
      · rw [if_neg hc] at hnone
        have hsel := lcScan_none_sel t _ _ hnone
        rw [hinv hsel] at hc
        exact hc (Or.inl rfl)
    · rw [if_neg ha] at hnone
      obtain ⟨b, hb, hbh⟩ := hex
      rcases List.mem_cons.mp hb with hba | hbt
      · rw [hba] at hbh
        exact ha hbh
      · exact ih _ _ hinv ⟨b, hbt, hbh⟩ hnone

/-! ## Weighted scan lemmas -/

theorem wrrScan_sel_none :
    ∀ (bs : List Backend) (cs : List Int) (i : Nat) (maxW : Int)
      (sel : Option Nat),
      (wrrScan bs cs i maxW sel).2.1 = none → sel = none := by
  intro bs
  induction bs with
  | nil => intro cs i maxW sel h; exact h
  | cons b t ih =>
    intro cs i maxW sel h
    cases cs with
    | nil => exact h
    | cons c ct =>
      simp only [wrrScan] at h
      by_cases hb : b.healthy = true
      · rw [if_pos hb] at h
        by_cases hgt : c + b.weight > maxW
        · rw [if_pos hgt] at h
          dsimp only at h
          exact absurd (ih _ _ _ _ h) (by simp)
        · rw [if_neg hgt] at h
          dsimp only at h
          exact ih _ _ _ _ h
      · rw [if_neg hb] at h
        dsimp only at h
        exact ih _ _ _ _ h

theorem wrrScan_sel_some_spec (Q : Nat → Prop) :
    ∀ (bs : List Backend) (cs : List Int) (i : Nat) (maxW : Int)
      (sel : Option Nat),
      (∀ k, sel = some k → Q k) →
      (∀ j, j < bs.length → (bs.getD j default).healthy = true → Q (i + j)) →
      ∀ k, (wrrScan bs cs i maxW sel).2.1 = some k → Q k := by
  intro bs
  induction bs with
  | nil => intro cs i maxW sel h1 _ k hk; exact h1 k hk
  | cons b t ih =>
    intro cs i maxW sel h1 h2 k hk
    cases cs with
    | nil => exact h1 k hk
    | cons c ct =>
      simp only [wrrScan] at hk
      have hshift : ∀ j, j < t.length → (t.getD j default).healthy = true →
          Q (i + 1 + j) := by
        intro j hj hjh
        have := h2 (j + 1) (by simpa using hj) (by simpa using hjh)
        rw [show i + 1 + j = i + (j + 1) by omega]
        exact this
      by_cases hb : b.healthy = true
      · rw [if_pos hb] at hk
        by_cases hgt : c + b.weight > maxW
        · rw [if_pos hgt] at hk
          dsimp only at hk
          refine ih ct (i + 1) _ _ ?_ hshift k hk
          intro k2 hk2
          rw [← Option.some.inj hk2]
          have := h2 0 (by simp) (by simpa using hb)
          simpa using this
        · rw [if_neg hgt] at hk
          dsimp only at hk
          exact ih ct (i + 1) _ _ h1 hshift k hk
      · rw [if_neg hb] at hk
        dsimp only at hk
        exact ih ct (i + 1) _ _ h1 hshift k hk

theorem wrrScan_sel_none_iff :
    ∀ (bs : List Backend) (cs : List Int) (i : Nat), cs.length = bs.length →
      ((wrrScan bs cs i (-1) none).2.1 = none ↔
        ∀ j, j < bs.length → (bs.getD j default).healthy = true →
          cs.getD j 0 + (bs.getD j default).weight ≤ -1) := by
  intro bs
  induction bs with
  | nil =>
    intro cs i _
    constructor
    · intro _ j hj
      exact absurd hj (by simp)
    · intro _
      rfl
  | cons b t ih =>
    intro cs i hlen
    cases cs with
    | nil => simp at hlen
    | cons c ct =>
      have hlen2 : ct.length = t.length := by simpa using hlen
      simp only [wrrScan]
      by_cases hb : b.healthy = true
      · rw [if_pos hb]
        by_cases hgt : c + b.weight > -1
        · rw [if_pos hgt]
          dsimp only
          constructor
          · intro h
            exact absurd (wrrScan_sel_none t ct (i + 1) _ _ h) (by simp)
          · intro hall
            have h0 := hall 0 (by simp) (by simpa using hb)
            simp only [List.getD_cons_zero] at h0
            omega
        · rw [if_neg hgt]
          dsimp only
          rw [ih ct (i + 1) hlen2]
          constructor
          · intro h j hj hjh
            cases j with
            | zero =>
              simp only [List.getD_cons_zero]
              omega
            | succ j2 =>
              have := h j2 (by simpa using hj) (by simpa using hjh)
              simpa using this
          · intro h j hj hjh
            have := h (j + 1) (by simpa using hj) (by simpa using hjh)
            simpa using this
      · rw [if_neg hb]
        dsimp only
        rw [ih ct (i + 1) hlen2]
        constructor
        · intro h j hj hjh
          cases j with
          | zero =>
            rw [List.getD_cons_zero] at hjh
            exact absurd hjh hb
          | succ j2 =>
            have := h j2 (by simpa using hj) (by simpa using hjh)
            simpa using this
        · intro h j hj hjh
          have := h (j + 1) (by simpa using hj) (by simpa using hjh)
          simpa using this

/-! ## Error contracts of the three strategies -/

theorem selectRR_contract (s : RRState)
    (hwf : s.backends = [] ∨ s.current < s.backends.length) :
    (selectRR s = .error .noBackends ↔ s.backends = []) ∧
    (selectRR s = .error .noHealthy ↔
      s.backends ≠ [] ∧ ∀ b ∈ s.backends, b.healthy = false) ∧
    (∀ b s2, selectRR s = .ok (b, s2) → b.healthy = true) := by
  by_cases he : s.backends = []
  · have hsel : selectRR s = .error .noBackends := by
      unfold selectRR
      rw [if_pos (by simp [he])]
    refine ⟨⟨fun _ => he, fun _ => hsel⟩, ⟨?_, ?_⟩, ?_⟩
    · intro h
      rw [hsel] at h
      exact absurd (Except.error.inj h) (by simp)
    · intro h
      exact absurd he h.1
    · intro b s2 h
      rw [hsel] at h
      exact absurd h (by simp)
  · have hcur : s.current < s.backends.length := hwf.resolve_left he
    have hne : ¬s.backends.isEmpty = true := by simp [he]
    unfold selectRR
    rw [if_neg hne]
    cases hl : rrLoop s.backends s.current s.current s.backends.length with
    | some p =>
      cases p with
      | mk b nxt =>
        dsimp only
        have hh := rrLoop_ok_healthy s.backends.length s.backends s.current
          s.current b nxt hl
        refine ⟨⟨?_, fun h => absurd h he⟩, ⟨?_, ?_⟩, ?_⟩
        · intro h
          exact absurd h (by simp)
        · intro h
          exact absurd h (by simp)
        · intro h
          rw [h.2 b hh.1] at hh
          exact absurd hh.2 (by simp)
        · intro b2 s2 h
          have hb2 : b = b2 := congrArg Prod.fst (Except.ok.inj h)
          rw [← hb2]
          exact hh.2
    | none =>
      dsimp only
      refine ⟨⟨?_, fun h => absurd h he⟩, ⟨?_, fun _ => rfl⟩, ?_⟩
      · intro h
        exact absurd (Except.error.inj h) (by simp)
      · intro _
        exact ⟨he, (rrLoop_none_iff s.backends s.current hcur).mp hl⟩
      · intro b s2 h
        exact absurd h (by simp)

theorem selectLC_contract (bs : List Backend) :
    (selectLC bs = .error .noBackends ↔ bs = []) ∧
    (selectLC bs = .error .noHealthy ↔
      bs ≠ [] ∧ ∀ b ∈ bs, b.healthy = false) ∧
    (∀ b, selectLC bs = .ok b → b.healthy = true) := by
  by_cases he : bs = []
  · have hsel : selectLC bs = .error .noBackends := by
      unfold selectLC
      rw [if_pos (by simp [he])]
    refine ⟨⟨fun _ => he, fun _ => hsel⟩, ⟨?_, ?_⟩, ?_⟩
    · intro h
      rw [hsel] at h
      exact absurd (Except.error.inj h) (by simp)
    · intro h
      exact absurd he h.1
    · intro b h
      rw [hsel] at h
      exact absurd h (by simp)
  · unfold selectLC
    rw [if_neg (by simp [he])]
    cases hl : lcScan bs none (-1) with
    | some b =>
      dsimp only
      have hh : b.healthy = true :=
        lcScan_some_healthy bs none (-1)
          (fun x hx => absurd hx (by simp)) b hl
      refine ⟨⟨?_, fun h => absurd h he⟩, ⟨?_, ?_⟩, ?_⟩
      · intro h
        exact absurd h (by simp)
      · intro h
        exact absurd h (by simp)
      · intro h
        rw [lcScan_none_of_all bs h.2 (-1)] at hl
        exact absurd hl (by simp)
      · intro b2 h
        rw [← Except.ok.inj h]
        exact hh
    | none =>
      dsimp only
      refine ⟨⟨?_, fun h => absurd h he⟩, ⟨?_, fun _ => rfl⟩, ?_⟩
      · intro h
        exact absurd (Except.error.inj h) (by simp)
      · intro _
        refine ⟨he, ?_⟩
        by_contra hq
        push_neg at hq
        obtain ⟨b, hb, hbh⟩ := hq
        have hbt : b.healthy = true := by
          cases hx : b.healthy
          · exact absurd hx hbh
          · rfl
        exact lcScan_ne_none_of_healthy bs none (-1)
          (fun _ => rfl) ⟨b, hb, hbt⟩ hl
      · intro b h
        exact absurd h (by simp)

theorem selectWRR_contract (s : WRRState)
    (hlen : s.currentWeights.length = s.backends.length) :
    (selectWRR s = .error .noBackends ↔ s.backends = []) ∧
    (selectWRR s = .error .noHealthy ↔
      s.backends ≠ [] ∧ ∀ j, j < s.backends.length →
        (s.backends.getD j default).healthy = true →
        s.currentWeights.getD j 0 + (s.backends.getD j default).weight < 0) ∧
    (∀ b s2, selectWRR s = .ok (b, s2) → b.healthy = true) := by
  by_cases he : s.backends = []
  · have hsel : selectWRR s = .error .noBackends := by
      unfold selectWRR
      rw [if_pos (by simp [he])]
    refine ⟨⟨fun _ => he, fun _ => hsel⟩, ⟨?_, ?_⟩, ?_⟩
    · intro h
      rw [hsel] at h
      exact absurd (Except.error.inj h) (by simp)
    · intro h
      exact absurd he h.1
    · intro b s2 h
      rw [hsel] at h
      exact absurd h (by simp)
  · unfold selectWRR
    rw [if_neg (by simp [he])]
    have hiff := wrrScan_sel_none_iff s.backends s.currentWeights 0 hlen
    cases hl : (wrrScan s.backends s.currentWeights 0 (-1) none).2.1 with
    | some k =>
      dsimp only
      have hQ : k < s.backends.length ∧
          (s.backends.getD k default).healthy = true := by
        refine wrrScan_sel_some_spec
          (fun k2 => k2 < s.backends.length ∧
            (s.backends.getD k2 default).healthy = true)
          s.backends s.currentWeights 0 (-1) none
          (fun k2 hk2 => absurd hk2 (by simp)) ?_ k hl
        intro j hj hjh
        rw [Nat.zero_add]
        exact ⟨hj, hjh⟩
      refine ⟨⟨?_, fun h => absurd h he⟩, ⟨?_, ?_⟩, ?_⟩
      · intro h
        exact absurd h (by simp)
      · intro h
        exact absurd h (by simp)
      · intro h
        have hnone := hiff.mpr (by
          intro j hj hjh
          have := h.2 j hj hjh
          omega)
        rw [hl] at hnone
        exact absurd hnone (by simp)
      · intro b s2 h
        have hb : s.backends.getD k default = b :=
          congrArg Prod.fst (Except.ok.inj h)
        rw [← hb]
        exact hQ.2
    | none =>
      dsimp only
      refine ⟨⟨?_, fun h => absurd h he⟩, ⟨?_, fun _ => rfl⟩, ?_⟩
      · intro h
        exact absurd (Except.error.inj h) (by simp)
      · intro _
        refine ⟨he, ?_⟩
        intro j hj hjh
        rw [hl] at hiff
        have := (hiff.mp rfl) j hj hjh
        omega
      · intro b s2 h
        exact absurd h (by simp)

/-- Claim C8 (amended): for round-robin and least-connections, select returns
NoBackend exactly on the empty pool, NoHealthyBackend exactly when the
non-empty pool has no healthy backend, and otherwise a healthy backend; for
the weighted strategy NoBackend is likewise returned exactly on the empty
pool and a returned backend is always healthy, but NoHealthyBackend is
returned exactly when every healthy backend has a negative updated current
weight (which includes, beyond the all-unhealthy case, reachable states with
healthy backends). -/
theorem select_error_contract :
    (∀ s : RRState, s.backends = [] ∨ s.current < s.backends.length →
      (selectRR s = .error .noBackends ↔ s.backends = []) ∧
      (selectRR s = .error .noHealthy ↔
        s.backends ≠ [] ∧ ∀ b ∈ s.backends, b.healthy = false) ∧
      (∀ b s2, selectRR s = .ok (b, s2) → b.healthy = true)) ∧
    (∀ bs : List Backend,
      (selectLC bs = .error .noBackends ↔ bs = []) ∧
      (selectLC bs = .error .noHealthy ↔
        bs ≠ [] ∧ ∀ b ∈ bs, b.healthy = false) ∧
      (∀ b, selectLC bs = .ok b → b.healthy = true)) ∧
    (∀ s : WRRState, s.currentWeights.length = s.backends.length →
      (selectWRR s = .error .noBackends ↔ s.backends = []) ∧
      (selectWRR s = .error .noHealthy ↔
        s.backends ≠ [] ∧ ∀ j, j < s.backends.length →
          (s.backends.getD j default).healthy = true →
          s.currentWeights.getD j 0 + (s.backends.getD j default).weight < 0) ∧
      (∀ b s2, selectWRR s = .ok (b, s2) → b.healthy = true)) :=
  ⟨fun s hwf => selectRR_contract s hwf,
   selectLC_contract,
   fun s hlen => selectWRR_contract s hlen⟩

theorem select_error_contract_witness :
    ((selectRR c8wRR = .error .noBackends ↔ c8wRR.backends = []) ∧
     (selectRR c8wRR = .error .noHealthy ↔
       c8wRR.backends ≠ [] ∧ ∀ b ∈ c8wRR.backends, b.healthy = false) ∧
     (∀ b s2, selectRR c8wRR = .ok (b, s2) → b.healthy = true)) ∧
    ((selectLC [c8wB] = .error .noBackends ↔ [c8wB] = []) ∧
     (selectLC [c8wB] = .error .noHealthy ↔
       [c8wB] ≠ [] ∧ ∀ b ∈ [c8wB], b.healthy = false) ∧
     (∀ b, selectLC [c8wB] = .ok b → b.healthy = true)) ∧
    ((selectWRR c8wWRR = .error .noBackends ↔ c8wWRR.backends = []) ∧
     (selectWRR c8wWRR = .error .noHealthy ↔
       c8wWRR.backends ≠ [] ∧ ∀ j, j < c8wWRR.backends.length →
         (c8wWRR.backends.getD j default).healthy = true →
         c8wWRR.currentWeights.getD j 0 + (c8wWRR.backends.getD j default).weight < 0) ∧
     (∀ b s2, selectWRR c8wWRR = .ok (b, s2) → b.healthy = true)) :=
  ⟨select_error_contract.1 c8wRR (Or.inr (by decide)),
   select_error_contract.2.1 [c8wB],
   select_error_contract.2.2 c8wWRR (by decide)⟩

theorem rrLoop_head_healthy (bs : List Backend) (cur start fuel : Nat)
    (hfuel : 0 < fuel) (hc : cur < bs.length)
    (hh : bs[cur].healthy = true) :
    rrLoop bs cur start fuel = some (bs[cur], (cur + 1) % bs.length) := by
  cases fuel with
  | zero => exact absurd hfuel (by omega)
  | succ f =>
    rw [rrLoop, List.getElem?_eq_getElem hc]
    dsimp only
    rw [if_pos hh]

theorem selectRR_step_all_healthy (bs : List Backend) (cur : Nat)
    (hall : ∀ b ∈ bs, b.healthy = true) (hc : cur < bs.length) :
    selectRR { backends := bs, current := cur } =
      .ok (bs.getD cur default,
           { backends := bs, current := (cur + 1) % bs.length }) := by
  have hn : 0 < bs.length := by omega
  unfold selectRR
  rw [if_neg (by simp only [List.isEmpty_iff]; exact List.length_pos.mp hn)]
  rw [rrLoop_head_healthy bs cur cur bs.length hn hc
    (hall _ (bs.getElem_mem hc))]
  rw [List.getD_eq_getElem?_getD, List.getElem?_eq_getElem hc]
  rfl

theorem rrRun_all_healthy (bs : List Backend)
    (hall : ∀ b ∈ bs, b.healthy = true) :
    ∀ (N cur : Nat), cur < bs.length →
      rrRun { backends := bs, current := cur } N =
        some ((List.range N).map
                (fun j => bs.getD ((cur + j) % bs.length) default),
              { backends := bs, current := (cur + N) % bs.length }) := by
  intro N
  induction N with
  | zero =>
    intro cur hc
    rw [rrRun]
    rw [List.range_zero, List.map_nil, Nat.add_zero, Nat.mod_eq_of_lt hc]
  | succ n ih =>
    intro cur hc
    have hn : 0 < bs.length := by omega
    rw [rrRun]
    rw [selectRR_step_all_healthy bs cur hall hc]
    dsimp only
    rw [ih ((cur + 1) % bs.length) (Nat.mod_lt _ hn)]
    dsimp only
    have hidx : ∀ j : Nat, ((cur + 1) % bs.length + j) % bs.length =
        (cur + (j + 1)) % bs.length := by
      intro j
      rw [Nat.mod_add_mod, show cur + 1 + j = cur + (j + 1) by omega]
    congr 2
    · rw [List.range_succ_eq_map, List.map_cons, List.map_map]
      congr 1
      · rw [Nat.add_zero, Nat.mod_eq_of_lt hc]
      · congr 1
        funext j
        show bs.getD (((cur + 1) % bs.length + j) % bs.length) default = _
        rw [hidx j]
        rfl
    · rw [hidx n]

theorem count_range_mod (k r : Nat) (hk : 0 < k) (hr : r < k) :
    ∀ N, (List.range N).countP (fun j => j % k = r) =
      N / k + (if r < N % k then 1 else 0) := by
  intro N
  induction N with
  | zero => simp
  | succ n ih =>
    have hmlt : n % k < k := Nat.mod_lt _ hk
    rw [List.range_succ, List.countP_append, ih, List.countP_singleton]
    simp only [decide_eq_true_eq]
    by_cases hnk : n % k + 1 = k
    · have hdvd : k ∣ n + 1 := by
        refine ⟨n / k + 1, ?_⟩
        have hd := Nat.div_add_mod n k
        have h2 : k * (n / k + 1) = k * (n / k) + k := by ring
        omega
      have hdiv : (n + 1) / k = n / k + 1 := Nat.succ_div_of_dvd hdvd
      have hmod : (n + 1) % k = 0 := Nat.mod_eq_zero_of_dvd hdvd
      rw [hdiv, hmod]
      by_cases hnr : n % k = r
      · rw [if_pos hnr, if_neg (show ¬r < n % k by omega),
          if_neg (show ¬r < 0 by omega)]
      · rw [if_neg hnr, if_pos (show r < n % k by omega),
          if_neg (show ¬r < 0 by omega)]
    · have hk2 : 1 < k := by omega
      have hmod : (n + 1) % k = n % k + 1 := by
        rw [Nat.add_mod, Nat.mod_eq_of_lt hk2, Nat.mod_eq_of_lt (by omega)]
      have hdvd : ¬k ∣ n + 1 := by
        intro hd2
        have := Nat.mod_eq_zero_of_dvd hd2
        omega
      have hdiv : (n + 1) / k = n / k := Nat.succ_div_of_not_dvd hdvd
      rw [hdiv, hmod]
      by_cases hnr : n % k = r
      · rw [if_pos hnr, if_neg (show ¬r < n % k by omega),
          if_pos (show r < n % k + 1 by omega)]
      · rw [if_neg hnr]
        by_cases hlt : r < n % k
        · rw [if_pos hlt, if_pos (show r < n % k + 1 by omega)]
        · rw [if_neg hlt, if_neg (show ¬r < n % k + 1 by omega)]

theorem ceil_div_eq (N k : Nat) (hk : 0 < k) :
    (N + k - 1) / k = N / k + (if 0 < N % k then 1 else 0) := by
  have hd := Nat.div_add_mod N k
  have hmlt : N % k < k := Nat.mod_lt _ hk
  by_cases hz : N % k = 0
  · rw [if_neg (by omega)]
    have h1 : N + k - 1 = k * (N / k) + (k - 1) := by omega
    have h3 : (k - 1) / k = 0 := Nat.div_eq_of_lt (by omega)
    rw [h1, Nat.mul_add_div hk, h3]
  · rw [if_pos (by omega)]
    have h2 : k * (N / k + 1) = k * (N / k) + k := by ring
    have h1 : N + k - 1 = k * (N / k + 1) + (N % k - 1) := by omega
    have h3 : (N % k - 1) / k = 0 := Nat.div_eq_of_lt (by omega)
    rw [h1, Nat.mul_add_div hk, h3, Nat.add_zero]

theorem mod_shift_iff (n c i j : Nat) (hc : c < n) (hi : i < n) :
    (c + j) % n = i ↔ j % n = (n + i - c) % n := by
  constructor
  · intro h
    have h1 : j % n = ((c + j) % n + (n - c)) % n := by
      rw [Nat.mod_add_mod, show c + j + (n - c) = j + n by omega,
        Nat.add_mod_right]
    rw [h1, h, show i + (n - c) = n + i - c by omega]
  · intro h
    have h1 : (c + j) % n = (c + j % n) % n := by rw [Nat.add_mod_mod]
    rw [h1, h, Nat.add_mod_mod, show c + (n + i - c) = i + n by omega,
      Nat.add_mod_right, Nat.mod_eq_of_lt hi]

/-- Claim C9: with a pool of k (distinct) backends that all stay healthy,
over any N consecutive calls the round-robin balancer selects every backend
between floor(N/k) and ceil(N/k) times. -/
theorem roundRobin_fairness (bs : List Backend) (cur N : Nat)
    (hall : ∀ b ∈ bs, b.healthy = true)
    (hc : cur < bs.length)
    (hnd : bs.Nodup) :
    ∃ sels s2,
      rrRun { backends := bs, current := cur } N = some (sels, s2) ∧
      ∀ i, ∀ hi : i < bs.length,
        N / bs.length ≤ sels.count bs[i] ∧
        sels.count bs[i] ≤ (N + bs.length - 1) / bs.length := by
  have hn : 0 < bs.length := by omega
  refine ⟨_, _, rrRun_all_healthy bs hall N cur hc, ?_⟩
  intro i hi
  have hr : (bs.length + i - cur) % bs.length < bs.length := Nat.mod_lt _ hn
  have hcnt :
      ((List.range N).map
        (fun j => bs.getD ((cur + j) % bs.length) default)).count bs[i] =
      (List.range N).countP
        (fun j => j % bs.length = (bs.length + i - cur) % bs.length) := by
    rw [List.count_eq_countP, List.countP_map]
    refine List.countP_congr ?_
    intro j _
    simp only [Function.comp_apply, beq_iff_eq, decide_eq_true_eq]
    rw [List.getD_eq_getElem?_getD, List.getElem?_eq_getElem (Nat.mod_lt _ hn)]
    dsimp only [Option.getD]
    rw [hnd.getElem_inj_iff]
    exact mod_shift_iff bs.length cur i j hc hi
  rw [hcnt, count_range_mod bs.length _ hn hr N, ceil_div_eq N bs.length hn]
  constructor
  · omega
  · by_cases hlt : (bs.length + i - cur) % bs.length < N % bs.length
    · rw [if_pos hlt, if_pos (by omega)]
    · rw [if_neg hlt]
      split_ifs <;> omega

theorem roundRobin_fairness_witness :
    ∃ sels s2,
      rrRun { backends := c9Pool, current := 0 } 7 = some (sels, s2) ∧
      ∀ i, ∀ hi : i < c9Pool.length,
        7 / c9Pool.length ≤ sels.count c9Pool[i] ∧
        sels.count c9Pool[i] ≤ (7 + c9Pool.length - 1) / c9Pool.length :=
  roundRobin_fairness c9Pool 0 7 (by decide) (by decide) (by decide)
